import Mathlib

/-!
# Flashcards review session

A shallow embedding of `flashcards/static/app.js`: the session variables of the
script, the parts of the document it writes to, and the functions `setButtonsEnabled`,
`renderProgress`, `renderCard`, `flip`, `grade`, `restart` and `loadDeck`, followed by
theorems about the queue of card indices and about what the document shows.

The script mutates its variables in place and can be interrupted by a `TypeError`
(reading a property of `undefined`), so every function takes the page before the call
and returns a `Completion`: the page after the call together with the way the call ended.

The session operations are embedded over a deck that is a list of cards. `loadDeckRaw`
follows `loadDeck()` on a payload of any shape, and agrees with `loadDeck` on a list of
cards (`loadDeckRaw_typed`).
-/

namespace Flashcards

/-! ## Data model -/

/-- One entry of the deck: the question `q` and the answer `a`. -/
structure Card where
  q : String
  a : String
deriving DecidableEq, Repr

/-- The variables declared under the comment `// Session state` of the script. -/
structure Session where
  /-- Variable `cards`. -/
  cards : List Card
  /-- Variable `queue`: indices into `cards`, the current card is `queue[0]`. -/
  queue : List Nat
  /-- Variable `showingAnswer`. -/
  showingAnswer : Bool
  /-- Variable `removeOnGotIt`. -/
  removeOnGotIt : Bool
deriving DecidableEq, Repr

/-- The properties of document elements that the script writes. -/
structure Dom where
  /-- Value of `progressEl.textContent`. -/
  progressText : String
  /-- Value of `faceEl.textContent`. -/
  faceText : String
  /-- Attribute `aria-pressed` of `cardEl`, `none` while the attribute is absent. -/
  ariaPressed : Option String
  /-- Value of `showBtn.disabled`. -/
  showBtnDisabled : Bool
  /-- Value of `gotBtn.disabled`. -/
  gotBtnDisabled : Bool
  /-- Value of `againBtn.disabled`. -/
  againBtnDisabled : Bool
  /-- Whether `showBtn.focus()` has moved the focus to the show button. -/
  showBtnFocused : Bool
deriving DecidableEq, Repr

/-- The whole state the script works on. -/
structure Page where
  session : Session
  dom : Dom
deriving DecidableEq, Repr

/-- How a call ended: it returned, or a `TypeError` escaped from it. In both cases
the page carries every assignment made before the call ended. -/
inductive Completion where
  | normal (p : Page)
  | thrown (p : Page)
deriving DecidableEq, Repr

/-- The page a call leaves behind. -/
def Completion.page : Completion → Page
  | .normal p => p
  | .thrown p => p

/-- Whether a `TypeError` escaped from the call. -/
def Completion.threw : Completion → Bool
  | .normal _ => false
  | .thrown _ => true

/-! ## Array helpers -/

/-- The array left by `xs.splice(start, deleteCount, ...items)` for a start index that is
a natural number. -/
def splice {α : Type} (xs : List α) (start deleteCount : Nat) (items : List α) : List α :=
  let actualStart := min start xs.length
  let actualDeleteCount := min deleteCount (xs.length - actualStart)
  xs.take actualStart ++ items ++ xs.drop (actualStart + actualDeleteCount)

/-- The array `xs.map((_, i) => i)`. -/
def indices {α : Type} (xs : List α) : List Nat :=
  xs.mapIdx (fun i _ => i)

/-! ## Rendering -/

/-- Function `setButtonsEnabled(isAnswerShown)`. -/
def setButtonsEnabled (isAnswerShown : Bool) (p : Page) : Page :=
  { p with dom := { p.dom with
      showBtnDisabled := isAnswerShown || p.session.queue.length == 0
      gotBtnDisabled := !isAnswerShown || p.session.queue.length == 0
      againBtnDisabled := !isAnswerShown || p.session.queue.length == 0 } }

/-- Function `renderProgress()`. The difference `total - remaining` is computed over the
integers, as the script computes it over numbers. -/
def renderProgress (p : Page) : Page :=
  let total : Int := p.session.cards.length
  let remaining : Int := p.session.queue.length
  let done : Int := total - remaining
  let currentIdx : Int := if total == 0 || remaining == 0 then 0 else done + 1
  { p with dom := { p.dom with
      progressText :=
        if remaining > 0 then
          "Card " ++ toString currentIdx ++ " of " ++ toString total ++ " — "
            ++ toString remaining ++ " remaining"
        else
          "Session complete. " ++ toString total ++ " / " ++ toString total ++ " learned." } }

/-- Function `renderCard()`. When `cards[queue[0]]` is `undefined`, reading its property
`a` or `q` raises a `TypeError` before anything is written. -/
def renderCard (p : Page) : Completion :=
  if p.session.queue.length == 0 then
    .normal (setButtonsEnabled true { p with dom := { p.dom with faceText := "🎉 All done!" } })
  else
    match p.session.queue.head?.bind (fun i => p.session.cards.get? i) with
    | none => .thrown p
    | some current =>
      if p.session.showingAnswer then
        .normal (setButtonsEnabled p.session.showingAnswer
          { p with dom := { p.dom with faceText := current.a, ariaPressed := some "true" } })
      else
        .normal (setButtonsEnabled p.session.showingAnswer
          { p with dom := { p.dom with faceText := current.q, ariaPressed := some "false" } })

/-! ## Session operations -/

/-- Function `flip()`. -/
def flip (p : Page) : Completion :=
  if p.session.queue.length == 0 then .normal p
  else
    renderCard { p with session := { p.session with showingAnswer := !p.session.showingAnswer } }

/-- Function `grade(result)`. The match on the queue is `queue.shift()`; its empty case
is the early return of the first line. -/
def grade (result : String) (p : Page) : Completion :=
  if p.session.queue.length == 0 then .normal p
  else
    match p.session.queue with
    | [] => .normal p
    | idx :: rest =>
      let queue :=
        if result == "again" then
          let insertPos := min 3 rest.length
          splice rest insertPos 0 [idx]
        else if result == "got_it" then
          if !p.session.removeOnGotIt then rest ++ [idx] else rest
        else rest
      renderCard (renderProgress
        { p with session := { p.session with queue := queue, showingAnswer := false } })

/-- Function `restart()`. The call `showBtn.focus()` is reached only when `renderCard`
returns; a disabled button does not take the focus. -/
def restart (p : Page) : Completion :=
  if p.session.cards.length == 0 then .normal p
  else
    match renderCard (renderProgress
        { p with session :=
            { p.session with queue := indices p.session.cards, showingAnswer := false } }) with
    | .thrown p1 => .thrown p1
    | .normal p1 =>
      .normal (if p1.dom.showBtnDisabled then p1
        else { p1 with dom := { p1.dom with showBtnFocused := true } })

/-- The change handler of the checkbox `toggleRemove`:
`removeOnGotIt = toggleRemove.checked`. -/
def toggleRemoveChange (checked : Bool) (p : Page) : Page :=
  { p with session := { p.session with removeOnGotIt := checked } }

/-! ## Loading the deck -/

/-- What `res.json()` gives when the deck is well typed: the body does not parse, it
parses to `null`, or it parses to a value whose property `cards` is absent (`none`) or a
list of cards. Payloads of any other shape are those of `RawBody` below. -/
inductive Body where
  | unparseable
  | nullPayload
  | payload (cards : Option (List Card))
deriving DecidableEq, Repr

/-- What `fetch(url)` gives: the promise is rejected, or it resolves to a response with
its `ok` flag and its body. -/
inductive FetchResult where
  | rejected
  | response (ok : Bool) (body : Body)
deriving DecidableEq, Repr

/-- Function `loadDeck()`, as a function of what `fetch` gives. A rejected `fetch`, a body
that does not parse and a `null` payload end the call with an exception before any
assignment. -/
def loadDeck (r : FetchResult) (p : Page) : Completion :=
  match r with
  | .rejected => .thrown p
  | .response ok body =>
    if !ok then
      .normal { p with dom := { p.dom with faceText := "Failed to load deck." } }
    else
      match body with
      | .unparseable => .thrown p
      | .nullPayload => .thrown p
      | .payload cs =>
        let cards := cs.getD []
        renderCard (renderProgress
          { p with session := { p.session with cards := cards, queue := indices cards } })

/-! ## Loading a payload of any shape

The functions above take a deck that is a list of cards. The definitions of this section
follow `loadDeck()` on a payload whose property `cards` may hold anything: the array may
hold `null` entries, and the value need not be an array. -/

/-- The value of `payload.cards` in a parsed payload: missing or falsy, so that
`payload.cards || []` takes `[]`; a truthy value that is not an array, which has no
method `map`; or an array, each entry being `null` (`none`) or a value read through its
properties `q` and `a` (`some`). -/
inductive PayloadCards where
  | missing
  | notArray
  | array (entries : List (Option Card))
deriving DecidableEq, Repr

/-- What `res.json()` gives, for a body of any shape. -/
inductive RawBody where
  | unparseable
  | nullPayload
  | payload (cards : PayloadCards)
deriving DecidableEq, Repr

/-- What `fetch(url)` gives, for a body of any shape. -/
inductive RawFetchResult where
  | rejected
  | response (ok : Bool) (body : RawBody)
deriving DecidableEq, Repr

/-- The value of the variable `cards`: an array of entries, or a value that is not an
array. -/
inductive CardsVar where
  | notArray
  | array (entries : List (Option Card))
deriving DecidableEq, Repr

/-- The variables of the script and the document, `cards` holding any value. -/
structure RawPage where
  cards : CardsVar
  queue : List Nat
  showingAnswer : Bool
  removeOnGotIt : Bool
  dom : Dom
deriving DecidableEq, Repr

/-- How a call on a `RawPage` ended. -/
inductive RawCompletion where
  | normal (p : RawPage)
  | thrown (p : RawPage)
deriving DecidableEq, Repr

/-- The page a call leaves behind. -/
def RawCompletion.page : RawCompletion → RawPage
  | .normal p => p
  | .thrown p => p

/-- Whether an exception escaped from the call. -/
def RawCompletion.threw : RawCompletion → Bool
  | .normal _ => false
  | .thrown _ => true

/-- Function `setButtonsEnabled(isAnswerShown)` on a `RawPage`. -/
def setButtonsEnabledRaw (isAnswerShown : Bool) (p : RawPage) : RawPage :=
  { p with dom := { p.dom with
      showBtnDisabled := isAnswerShown || p.queue.length == 0
      gotBtnDisabled := !isAnswerShown || p.queue.length == 0
      againBtnDisabled := !isAnswerShown || p.queue.length == 0 } }

/-- Function `renderProgress()` on a page whose `cards` is the array `entries`. -/
def renderProgressRaw (entries : List (Option Card)) (p : RawPage) : RawPage :=
  let total : Int := entries.length
  let remaining : Int := p.queue.length
  let done : Int := total - remaining
  let currentIdx : Int := if total == 0 || remaining == 0 then 0 else done + 1
  { p with dom := { p.dom with
      progressText :=
        if remaining > 0 then
          "Card " ++ toString currentIdx ++ " of " ++ toString total ++ " — "
            ++ toString remaining ++ " remaining"
        else
          "Session complete. " ++ toString total ++ " / " ++ toString total ++ " learned." } }

/-- Function `renderCard()` on a page whose `cards` is the array `entries`. When
`cards[queue[0]]` is `undefined` or `null`, reading its property `a` or `q` raises a
`TypeError` before anything is written. -/
def renderCardRaw (entries : List (Option Card)) (p : RawPage) : RawCompletion :=
  if p.queue.length == 0 then
    .normal (setButtonsEnabledRaw true
      { p with dom := { p.dom with faceText := "🎉 All done!" } })
  else
    match p.queue.head?.bind (fun i => entries.get? i) with
    | none => .thrown p
    | some none => .thrown p
    | some (some current) =>
      if p.showingAnswer then
        .normal (setButtonsEnabledRaw p.showingAnswer
          { p with dom := { p.dom with faceText := current.a, ariaPressed := some "true" } })
      else
        .normal (setButtonsEnabledRaw p.showingAnswer
          { p with dom := { p.dom with faceText := current.q, ariaPressed := some "false" } })

/-- Function `loadDeck()` for a body of any shape. A value of `payload.cards` that is not
an array is assigned to `cards` before the call `cards.map` raises a `TypeError`. -/
def loadDeckRaw (r : RawFetchResult) (p : RawPage) : RawCompletion :=
  match r with
  | .rejected => .thrown p
  | .response ok body =>
    if !ok then
      .normal { p with dom := { p.dom with faceText := "Failed to load deck." } }
    else
      match body with
      | .unparseable => .thrown p
      | .nullPayload => .thrown p
      | .payload .missing =>
        renderCardRaw [] (renderProgressRaw []
          { p with cards := .array [], queue := indices ([] : List (Option Card)) })
      | .payload .notArray => .thrown { p with cards := .notArray }
      | .payload (.array entries) =>
        renderCardRaw entries (renderProgressRaw entries
          { p with cards := .array entries, queue := indices entries })

/-- The page when the script starts, as a `RawPage`. -/
def rawInitialPage (removeOnGotIt : Bool) (dom : Dom) : RawPage :=
  { cards := .array [], queue := [], showingAnswer := false, removeOnGotIt := removeOnGotIt,
    dom := dom }

/-- A page whose deck is a list of cards, as a `RawPage`. -/
def Page.toRaw (p : Page) : RawPage :=
  { cards := .array (p.session.cards.map some), queue := p.session.queue,
    showingAnswer := p.session.showingAnswer, removeOnGotIt := p.session.removeOnGotIt,
    dom := p.dom }

/-- A completion on a page whose deck is a list of cards, as a `RawCompletion`. -/
def Completion.toRaw : Completion → RawCompletion
  | .normal p => .normal p.toRaw
  | .thrown p => .thrown p.toRaw

/-- A well-typed fetch result among the fetch results of any shape. -/
def FetchResult.toRaw : FetchResult → RawFetchResult
  | .rejected => .rejected
  | .response ok .unparseable => .response ok .unparseable
  | .response ok .nullPayload => .response ok .nullPayload
  | .response ok (.payload none) => .response ok (.payload .missing)
  | .response ok (.payload (some cs)) => .response ok (.payload (.array (cs.map some)))

/-! ## Sequences of user events -/

/-- The commands the event wiring maps to session operations. -/
inductive Event where
  | flip
  | grade (result : String)
  | restart
  | toggleRemoveChange (checked : Bool)
deriving DecidableEq, Repr

/-- The page after the handler of one event has run. -/
def handle (e : Event) (p : Page) : Page :=
  match e with
  | .flip => (flip p).page
  | .grade result => (grade result p).page
  | .restart => (restart p).page
  | .toggleRemoveChange checked => toggleRemoveChange checked p

/-- The page after the handlers of a sequence of events have run in order. -/
def run (es : List Event) (p : Page) : Page :=
  es.foldl (fun acc e => handle e acc) p

/-- Queue well-formedness: pairwise distinct indices, all below the number of cards. -/
def QueueWF (s : Session) : Prop :=
  s.queue.Nodup ∧ ∀ i ∈ s.queue, i < s.cards.length

/-- A sequence of grades none of which retires a card: every event is `grade('again')`,
or `grade('got_it')` fired on a page whose `removeOnGotIt` is false. -/
def Conserving : List Event → Page → Prop
  | [], _ => True
  | e :: es, p =>
    (e = .grade "again" ∨ (e = .grade "got_it" ∧ p.session.removeOnGotIt = false)) ∧
      Conserving es (handle e p)

/-- The queue `after` holds the indices of the queue `before`, each once: it is a
permutation of it, of the same length, with the same members, without duplicates. -/
def Conserved (before after : List Nat) : Prop :=
  after.Perm before ∧ after.length = before.length ∧ (∀ i, i ∈ after ↔ i ∈ before) ∧
    after.Nodup

/-- The page when the script starts: no cards, an empty queue, the front side, the mode
read from the checkbox, and the document as the hosting page delivers it. -/
def initialPage (removeOnGotIt : Bool) (dom : Dom) : Page :=
  { session := { cards := [], queue := [], showingAnswer := false,
                 removeOnGotIt := removeOnGotIt },
    dom := dom }

/-- The pages the script can be in: the page at start, the page left by the one call of
`loadDeck()` made at start, and every page left by an event handler after that. -/
inductive Reachable : Page → Prop where
  | start (removeOnGotIt : Bool) (dom : Dom) : Reachable (initialPage removeOnGotIt dom)
  | load (removeOnGotIt : Bool) (dom : Dom) (r : FetchResult) :
      Reachable (loadDeck r (initialPage removeOnGotIt dom)).page
  | event (e : Event) (p : Page) : Reachable p → Reachable (handle e p)

/-- The document shows the current side of the head card: the queue is empty, or
`renderCard()` would leave the page as it is. -/
def Rendered (p : Page) : Prop :=
  p.session.queue = [] ∨ renderCard p = .normal p

/-! ## Scenario data -/

/-- The deck of scenarios A and B. -/
def deckAB : List Card := [⟨"1+1", "2"⟩, ⟨"2+2", "4"⟩]

/-- A deck of one card. -/
def deckOne : List Card := [⟨"1+1", "2"⟩]

/-- A document before anything has been rendered. -/
def blankDom : Dom :=
  { progressText := "", faceText := "", ariaPressed := none, showBtnDisabled := true,
    gotBtnDisabled := true, againBtnDisabled := true, showBtnFocused := false }

/-- A document whose three controls are enabled, as markup without `disabled`
attributes gives it. -/
def enabledDom : Dom :=
  { progressText := "", faceText := "", ariaPressed := none, showBtnDisabled := false,
    gotBtnDisabled := false, againBtnDisabled := false, showBtnFocused := false }

/-- A page with the given session and a blank document. -/
def pageOf (cards : List Card) (queue : List Nat) (showingAnswer removeOnGotIt : Bool) : Page :=
  { session := { cards := cards, queue := queue, showingAnswer := showingAnswer,
                 removeOnGotIt := removeOnGotIt },
    dom := blankDom }

/-! ## Helper lemmas -/

theorem indices_eq_range {α : Type} (xs : List α) : indices xs = List.range xs.length := by
  apply List.ext_getElem
  · simp [indices]
  · intro n h1 h2
    simp [indices]

theorem splice_insertPos (idx : Nat) (rest : List Nat) :
    splice rest (min 3 rest.length) 0 [idx] = rest.take 3 ++ [idx] ++ rest.drop 3 := by
  unfold splice
  by_cases h : 3 ≤ rest.length
  · simp [Nat.min_eq_left h]
  · have h1 : rest.length ≤ 3 := by omega
    simp [Nat.min_eq_right h1, List.take_of_length_le h1, List.drop_of_length_le h1]

@[simp] theorem setButtonsEnabled_session (b : Bool) (p : Page) :
    (setButtonsEnabled b p).session = p.session := rfl

@[simp] theorem renderProgress_session (p : Page) : (renderProgress p).session = p.session := rfl

@[simp] theorem renderCard_session (p : Page) : (renderCard p).page.session = p.session := by
  unfold renderCard
  split
  · rfl
  · split
    · rfl
    · split <;> rfl

theorem flip_session (p : Page) :
    (flip p).page.session =
      if p.session.queue = [] then p.session
      else { p.session with showingAnswer := !p.session.showingAnswer } := by
  unfold flip
  by_cases h : p.session.queue = []
  · simp [h, Completion.page]
  · have : p.session.queue.length ≠ 0 := by simpa using h
    simp [h]

theorem grade_nil (result : String) (p : Page) (h : p.session.queue = []) :
    grade result p = .normal p := by
  simp [grade, h]

theorem grade_session (result : String) (p : Page) (idx : Nat) (rest : List Nat)
    (h : p.session.queue = idx :: rest) :
    (grade result p).page.session =
      { p.session with
        queue :=
          if result = "again" then rest.take 3 ++ [idx] ++ rest.drop 3
          else if result = "got_it" then
            (if p.session.removeOnGotIt then rest else rest ++ [idx])
          else rest
        showingAnswer := false } := by
  unfold grade
  rw [h]
  simp only [List.length_cons, renderCard_session, renderProgress_session]
  by_cases h1 : result = "again"
  · simp [h1, splice_insertPos]
  · by_cases h2 : result = "got_it"
    · cases hr : p.session.removeOnGotIt <;> simp [h2]
    · simp [h1, h2]

theorem restart_session (p : Page) :
    (restart p).page.session =
      if p.session.cards = [] then p.session
      else { p.session with queue := List.range p.session.cards.length, showingAnswer := false } := by
  unfold restart
  by_cases h : p.session.cards = []
  · simp [h, Completion.page]
  · have h0 : p.session.cards.length ≠ 0 := by simpa using h
    simp only [h, if_false]
    have hs := renderCard_session (renderProgress
        { p with session :=
            { p.session with queue := indices p.session.cards, showingAnswer := false } })
    simp only [beq_iff_eq, h0, if_false]
    split
    · rename_i p1 he
      rw [he] at hs
      simpa [Completion.page, indices_eq_range] using hs
    · rename_i p1 he
      rw [he] at hs
      split <;> simpa [Completion.page, indices_eq_range] using hs

theorem again_queue_perm (idx : Nat) (rest : List Nat) :
    (rest.take 3 ++ [idx] ++ rest.drop 3).Perm (idx :: rest) := by
  have h : (rest.take 3 ++ idx :: rest.drop 3).Perm (idx :: (rest.take 3 ++ rest.drop 3)) :=
    List.perm_middle
  simpa [List.take_append_drop] using h

theorem grade_queue_subperm (result : String) (p : Page) :
    List.Subperm (grade result p).page.session.queue p.session.queue := by
  cases hq : p.session.queue with
  | nil =>
    rw [grade_nil result p hq, Completion.page, hq]
  | cons idx rest =>
    rw [grade_session result p idx rest hq]
    simp only
    split
    · exact (again_queue_perm idx rest).subperm
    · split
      · split
        · exact (List.sublist_cons_self idx rest).subperm
        · exact (List.perm_append_singleton idx rest).subperm
      · exact (List.sublist_cons_self idx rest).subperm

theorem grade_cards (result : String) (p : Page) :
    (grade result p).page.session.cards = p.session.cards := by
  cases hq : p.session.queue with
  | nil => rw [grade_nil result p hq, Completion.page]
  | cons idx rest => rw [grade_session result p idx rest hq]

theorem grade_removeOnGotIt (result : String) (p : Page) :
    (grade result p).page.session.removeOnGotIt = p.session.removeOnGotIt := by
  cases hq : p.session.queue with
  | nil => rw [grade_nil result p hq, Completion.page]
  | cons idx rest => rw [grade_session result p idx rest hq]

theorem queueWF_of_subperm (s t : Session) (hc : s.cards = t.cards)
    (hq : List.Subperm s.queue t.queue) (h : QueueWF t) : QueueWF s := by
  obtain ⟨l, hl, hsub⟩ := hq
  refine ⟨(hl.nodup_iff).1 (h.1.sublist hsub), ?_⟩
  intro i hi
  rw [hc]
  exact h.2 i (hsub.subset ((hl.mem_iff).2 hi))

theorem queueWF_range (s : Session) (h : s.queue = List.range s.cards.length) : QueueWF s := by
  refine ⟨?_, ?_⟩
  · rw [h]; exact List.nodup_range _
  · intro i hi
    rw [h] at hi
    exact List.mem_range.1 hi

theorem loadDeck_payload_session (cs : Option (List Card)) (p : Page) :
    (loadDeck (.response true (.payload cs)) p).page.session =
      { p.session with cards := cs.getD [], queue := List.range (cs.getD []).length } := by
  simp [loadDeck, indices_eq_range]

/-! ## Properties of the session -/

/-- C1: queue well-formedness is an invariant of the session. The queue left by a load
whose response is successful and carries a payload has pairwise distinct indices, all
below the number of cards; and from every page whose queue has that property, the queue
after `flip`, after `grade` with any result (whatever `removeOnGotIt` is), after `restart`
and after a change of `removeOnGotIt` has it again. -/
theorem queue_wellformed_invariant :
    (∀ (cs : Option (List Card)) (p : Page),
        QueueWF (loadDeck (.response true (.payload cs)) p).page.session) ∧
    ∀ p : Page, QueueWF p.session →
      QueueWF (flip p).page.session ∧
      (∀ result : String, QueueWF (grade result p).page.session) ∧
      QueueWF (restart p).page.session ∧
      ∀ checked : Bool, QueueWF (toggleRemoveChange checked p).session := by
  refine ⟨?_, ?_⟩
  · intro cs p
    apply queueWF_range
    rw [loadDeck_payload_session]
  · intro p h
    refine ⟨?_, ?_, ?_, ?_⟩
    · rw [flip_session]
      split
      · exact h
      · exact h
    · intro result
      exact queueWF_of_subperm _ _ (grade_cards result p) (grade_queue_subperm result p) h
    · rw [restart_session]
      split
      · exact h
      · exact queueWF_range _ rfl
    · intro checked
      exact h

/-- C1 at the deck of scenario A: the queue `[0, 1]` over two cards is well formed, and so
is the queue after grading the head card `again`. -/
theorem queue_wellformed_invariant_witness :
    QueueWF (pageOf deckAB [0, 1] true true).session ∧
    QueueWF (grade "again" (pageOf deckAB [0, 1] true true)).page.session :=
  ⟨by unfold QueueWF; decide,
   ((queue_wellformed_invariant.2 (pageOf deckAB [0, 1] true true)
      (by unfold QueueWF; decide)).2.1) "again"⟩

theorem conserved_of_perm (before after : List Nat) (h : after.Perm before)
    (hnd : before.Nodup) : Conserved before after :=
  ⟨h, h.length_eq, fun _ => h.mem_iff, (h.nodup_iff).2 hnd⟩

theorem grade_again_perm (p : Page) :
    (grade "again" p).page.session.queue.Perm p.session.queue := by
  cases hq : p.session.queue with
  | nil => rw [grade_nil _ p hq, Completion.page, hq]
  | cons idx rest =>
    rw [grade_session _ p idx rest hq]
    simpa using again_queue_perm idx rest

theorem grade_got_it_keep_perm (p : Page) (hm : p.session.removeOnGotIt = false) :
    (grade "got_it" p).page.session.queue.Perm p.session.queue := by
  cases hq : p.session.queue with
  | nil => rw [grade_nil _ p hq, Completion.page, hq]
  | cons idx rest =>
    rw [grade_session _ p idx rest hq]
    simp [hm]

theorem run_conserving_perm (es : List Event) :
    ∀ p : Page, Conserving es p → (run es p).session.queue.Perm p.session.queue := by
  induction es with
  | nil => intro p _; exact List.Perm.refl _
  | cons e es ih =>
    intro p h
    obtain ⟨he, hrest⟩ := h
    have h1 : (handle e p).session.queue.Perm p.session.queue := by
      rcases he with he | ⟨he, hm⟩
      · subst he; exact grade_again_perm p
      · subst he; exact grade_got_it_keep_perm p hm
    exact (ih (handle e p) hrest).trans h1

/-- C2 (P1, queue conservation): on a non-empty queue of pairwise distinct indices,
`grade('again')` (whatever `removeOnGotIt` is) and `grade('got_it')` with `removeOnGotIt`
false each leave a permutation of the queue (same length, same members, still pairwise
distinct), and so does every finite sequence of such grades. -/
theorem queue_conservation (p : Page) (hne : p.session.queue ≠ [])
    (hnd : p.session.queue.Nodup) :
    Conserved p.session.queue (grade "again" p).page.session.queue ∧
    (p.session.removeOnGotIt = false →
      Conserved p.session.queue (grade "got_it" p).page.session.queue) ∧
    ∀ es : List Event, Conserving es p →
      Conserved p.session.queue (run es p).session.queue ∧ (run es p).session.queue ≠ [] := by
  refine ⟨conserved_of_perm _ _ (grade_again_perm p) hnd, ?_, ?_⟩
  · intro hm
    exact conserved_of_perm _ _ (grade_got_it_keep_perm p hm) hnd
  · intro es hes
    have hp := run_conserving_perm es p hes
    refine ⟨conserved_of_perm _ _ hp hnd, ?_⟩
    intro h0
    rw [h0] at hp
    exact hne hp.symm.eq_nil

/-- C2 on the queue `[0, 1, 2]` with `removeOnGotIt` false: after `again`, `got_it`,
`again` the queue still holds each of the three indices once. -/
theorem queue_conservation_witness :
    Conserved [0, 1, 2]
      (run [.grade "again", .grade "got_it", .grade "again"]
        (pageOf (deckAB ++ deckAB) [0, 1, 2] true false)).session.queue :=
  ((queue_conservation (pageOf (deckAB ++ deckAB) [0, 1, 2] true false)
      (by decide) (by decide)).2.2
    [.grade "again", .grade "got_it", .grade "again"]
    ⟨Or.inl rfl, Or.inr ⟨rfl, by decide⟩, Or.inl rfl, trivial⟩).1

theorem grade_cons (result : String) (p : Page) (idx : Nat) (rest : List Nat)
    (h : p.session.queue = idx :: rest) :
    grade result p =
      renderCard (renderProgress { p with session := { p.session with
        queue :=
          if result = "again" then rest.take 3 ++ [idx] ++ rest.drop 3
          else if result = "got_it" then
            (if p.session.removeOnGotIt then rest else rest ++ [idx])
          else rest
        showingAnswer := false } }) := by
  unfold grade
  rw [h]
  by_cases h1 : result = "again"
  · simp [h1, splice_insertPos]
  · by_cases h2 : result = "got_it"
    · cases hr : p.session.removeOnGotIt <;> simp [h2]
    · simp [h1, h2]

theorem renderCard_head (p : Page) (j : Nat) (c : Card)
    (hj : p.session.queue.head? = some j) (hc : p.session.cards.get? j = some c) :
    (renderCard p).threw = false ∧
    (renderCard p).page.dom.faceText = (if p.session.showingAnswer then c.a else c.q) := by
  have hne : p.session.queue.length ≠ 0 := by
    intro h0
    rw [List.length_eq_zero.1 h0] at hj
    simp at hj
  unfold renderCard
  simp only [beq_iff_eq, hne, if_false, hj, Option.some_bind, hc]
  cases hs : p.session.showingAnswer <;> simp [Completion.threw, Completion.page, setButtonsEnabled]

theorem grade_front (result : String) (p : Page) (j : Nat) (c : Card)
    (hj : (grade result p).page.session.queue.head? = some j)
    (hc : p.session.cards.get? j = some c) :
    (grade result p).threw = false ∧ (grade result p).page.dom.faceText = c.q := by
  cases hq : p.session.queue with
  | nil =>
    rw [grade_nil result p hq, Completion.page, hq] at hj
    simp at hj
  | cons idx rest =>
    rw [grade_cons result p idx rest hq] at hj ⊢
    rw [renderCard_session, renderProgress_session] at hj
    have h := renderCard_head _ j c (by rw [renderProgress_session]; exact hj)
      (by rw [renderProgress_session]; exact hc)
    simpa using h

/-- C3: `grade('got_it')` on a queue `head :: tail` leaves exactly `tail` when
`removeOnGotIt` is true (one index fewer, the head is discarded) and exactly
`tail ++ [head]` when it is false; in both cases `showingAnswer` is false afterwards, and
when the new head is the index of a card the call returns with the question of that card
displayed. -/
theorem grade_got_it_queue (p : Page) (head : Nat) (tail : List Nat)
    (h : p.session.queue = head :: tail) :
    (p.session.removeOnGotIt = true →
      (grade "got_it" p).page.session.queue = tail ∧
      (grade "got_it" p).page.session.queue.length + 1 = p.session.queue.length ∧
      (p.session.queue.Nodup → head ∉ (grade "got_it" p).page.session.queue)) ∧
    (p.session.removeOnGotIt = false →
      (grade "got_it" p).page.session.queue = tail ++ [head]) ∧
    (grade "got_it" p).page.session.showingAnswer = false ∧
    (∀ (j : Nat) (c : Card), (grade "got_it" p).page.session.queue.head? = some j →
      p.session.cards.get? j = some c →
      (grade "got_it" p).threw = false ∧ (grade "got_it" p).page.dom.faceText = c.q) := by
  refine ⟨?_, ?_, ?_, ?_⟩
  · intro hm
    rw [grade_session _ p head tail h]
    simp only [hm]
    refine ⟨by simp, by simp [h], ?_⟩
    intro hnd
    rw [h] at hnd
    simpa using (List.nodup_cons.1 hnd).1
  · intro hm
    rw [grade_session _ p head tail h]
    simp [hm]
  · rw [grade_session _ p head tail h]
  · intro j c hj hc
    exact grade_front _ p j c hj hc

/-- C3 on scenario A: from the queue `[0, 1]` with the answer of the first card shown and
`removeOnGotIt` true, `grade('got_it')` leaves the queue `[1]`, front side, showing
the question `2+2`. -/
theorem grade_got_it_queue_witness :
    (grade "got_it" (pageOf deckAB [0, 1] true true)).page.session.queue = [1] ∧
    (grade "got_it" (pageOf deckAB [0, 1] true true)).page.session.showingAnswer = false ∧
    (grade "got_it" (pageOf deckAB [0, 1] true true)).page.dom.faceText = "2+2" :=
  ⟨((grade_got_it_queue (pageOf deckAB [0, 1] true true) 0 [1] rfl).1 rfl).1,
   (grade_got_it_queue (pageOf deckAB [0, 1] true true) 0 [1] rfl).2.2.1,
   ((grade_got_it_queue (pageOf deckAB [0, 1] true true) 0 [1] rfl).2.2.2 1 ⟨"2+2", "4"⟩
      (by decide) (by decide)).2⟩

theorem handle_queue_subset (e : Event) (p : Page) (he : e ≠ Event.restart) :
    (handle e p).session.queue ⊆ p.session.queue := by
  cases e with
  | flip =>
    simp only [handle, flip_session]
    split <;> exact List.Subset.refl _
  | grade result => exact (grade_queue_subperm result p).subset
  | restart => exact absurd rfl he
  | toggleRemoveChange checked => exact List.Subset.refl _

theorem run_queue_subset (es : List Event) :
    ∀ p : Page, Event.restart ∉ es → (run es p).session.queue ⊆ p.session.queue := by
  induction es with
  | nil => intro p _; exact List.Subset.refl _
  | cons e es ih =>
    intro p h
    have h1 : e ≠ Event.restart := fun he => h (by simp [he])
    have h2 : Event.restart ∉ es := fun hm => h (List.mem_cons_of_mem _ hm)
    exact List.Subset.trans (ih (handle e p) h2) (handle_queue_subset e p h1)

/-- C4 (P2, retirement): on a page whose queue is non-empty with pairwise distinct indices
and whose `removeOnGotIt` is true, with `i` the head, `grade('got_it')` leaves a queue one
shorter, and after any further finite sequence of `flip`, `grade` (any result) and
`removeOnGotIt` changes that contains no `restart`, the index `i` does not occur in
the queue. -/
theorem retirement (p : Page) (i : Nat) (tail : List Nat)
    (hq : p.session.queue = i :: tail) (hnd : p.session.queue.Nodup)
    (hm : p.session.removeOnGotIt = true) :
    (grade "got_it" p).page.session.queue.length + 1 = p.session.queue.length ∧
    ∀ es : List Event, Event.restart ∉ es →
      i ∉ (run es (grade "got_it" p).page).session.queue := by
  have hg : (grade "got_it" p).page.session.queue = tail := by
    rw [grade_session _ p i tail hq]
    simp [hm]
  refine ⟨by rw [hg, hq]; simp, ?_⟩
  intro es hes hi
  have h1 := run_queue_subset es (grade "got_it" p).page hes hi
  rw [hg] at h1
  rw [hq] at hnd
  exact (List.nodup_cons.1 hnd).1 h1

/-- C4 on scenario A: after the first card is retired from `[0, 1]`, the index `0` is
absent after `again`, `flip`, a mode change and two more `got_it` grades. -/
theorem retirement_witness :
    0 ∉ (run [.grade "again", .flip, .toggleRemoveChange false, .grade "got_it",
              .grade "got_it"]
          (grade "got_it" (pageOf deckAB [0, 1] true true)).page).session.queue :=
  (retirement (pageOf deckAB [0, 1] true true) 0 [1] rfl (by decide) rfl).2
    [.grade "again", .flip, .toggleRemoveChange false, .grade "got_it", .grade "got_it"]
    (by decide)

theorem insert_get (head : Nat) (tail : List Nat) :
    (tail.take 3 ++ [head] ++ tail.drop 3).get? (min 3 tail.length) = some head := by
  have hl : (tail.take 3).length = min 3 tail.length := List.length_take 3 tail
  rw [List.append_assoc, ← hl, List.get?_eq_getElem?,
    List.getElem?_append_right (Nat.le_refl _), Nat.sub_self]
  simp

theorem insert_eraseIdx (head : Nat) (tail : List Nat) :
    (tail.take 3 ++ [head] ++ tail.drop 3).eraseIdx (min 3 tail.length) = tail := by
  have hl : (tail.take 3).length = min 3 tail.length := List.length_take 3 tail
  rw [List.append_assoc, ← hl, List.eraseIdx_append_of_length_le (Nat.le_refl _)]
  simp [List.take_append_drop]

theorem insert_get_iff (head : Nat) (tail : List Nat) (hnot : head ∉ tail) (k : Nat) :
    (tail.take 3 ++ [head] ++ tail.drop 3).get? k = some head ↔ k = min 3 tail.length := by
  constructor
  · intro h
    have hl : (tail.take 3).length = min 3 tail.length := List.length_take 3 tail
    rw [← hl]
    by_contra hk
    rcases Nat.lt_or_gt_of_ne hk with hlt | hgt
    · rw [List.append_assoc, List.get?_eq_getElem?, List.getElem?_append_left hlt] at h
      exact hnot (List.mem_of_mem_take (List.getElem?_mem h))
    · rw [List.get?_eq_getElem?, List.getElem?_append_right (by simp; omega)] at h
      exact hnot (List.mem_of_mem_drop (List.getElem?_mem h))
  · intro h
    rw [h]
    exact insert_get head tail

/-- C5 (P3, again placement): on a queue `head :: tail` of length `n`, `grade('again')`
leaves `take 3 tail ++ [head] ++ drop 3 tail`: the graded index is at position
`min 3 (n - 1)`, removing that position gives back `tail` (the other indices keep their
order), the position is `0` only when `n - 1 = 0`, and in a queue of distinct indices
it is the only position of the graded index; `showingAnswer` is false afterwards. -/
theorem grade_again_placement (p : Page) (head : Nat) (tail : List Nat)
    (h : p.session.queue = head :: tail) :
    (grade "again" p).page.session.queue = tail.take 3 ++ [head] ++ tail.drop 3 ∧
    (grade "again" p).page.session.queue.get? (min 3 (p.session.queue.length - 1))
      = some head ∧
    (grade "again" p).page.session.queue.eraseIdx (min 3 (p.session.queue.length - 1))
      = tail ∧
    (min 3 (p.session.queue.length - 1) = 0 ↔ p.session.queue.length - 1 = 0) ∧
    (head ∉ tail → ∀ k : Nat,
      ((grade "again" p).page.session.queue.get? k = some head ↔
        k = min 3 (p.session.queue.length - 1))) ∧
    (head ∉ tail →
      ((grade "again" p).page.session.queue.get? 0 = some head ↔
        p.session.queue.length - 1 = 0)) ∧
    (grade "again" p).page.session.showingAnswer = false := by
  have hq : (grade "again" p).page.session.queue = tail.take 3 ++ [head] ++ tail.drop 3 := by
    rw [grade_session _ p head tail h]
    simp
  have hn : p.session.queue.length - 1 = tail.length := by rw [h]; simp
  have hz : (min 3 tail.length = 0 ↔ tail.length = 0) := by omega
  rw [hq, hn]
  refine ⟨rfl, insert_get head tail, insert_eraseIdx head tail, hz, ?_, ?_, ?_⟩
  · intro hnot k
    exact insert_get_iff head tail hnot k
  · intro hnot
    rw [insert_get_iff head tail hnot 0]
    omega
  · rw [grade_session _ p head tail h]

/-- C5 on scenario B: from the queue `[0, 1]`, `grade('again')` leaves `[1, 0]`. -/
theorem grade_again_placement_witness :
    (grade "again" (pageOf deckAB [0, 1] true true)).page.session.queue = [1, 0] :=
  (grade_again_placement (pageOf deckAB [0, 1] true true) 0 [1] rfl).1

/-- C6, as stated, fails on a queue of one card: from the queue `[0]`, `grade('again')`
leaves the queue `[0]`, so the graded index is at position 0 and the card just graded is
displayed again. -/
theorem again_single_card_repeats :
    (pageOf deckOne [0] true true).session.queue = [0] ∧
    (grade "again" (pageOf deckOne [0] true true)).page.session.queue = [0] ∧
    (grade "again" (pageOf deckOne [0] true true)).page.session.queue.get? 0 = some 0 ∧
    (grade "again" (pageOf deckOne [0] true true)).page.dom.faceText = "1+1" := by
  decide

/-- C6, amended: on a queue `head :: tail` of `n` indices with at least two elements,
`grade('again')` leaves `take 3 tail ++ [head] ++ drop 3 tail`: the graded index is put
back at position `min 3 (n - 1)`, which is at least 1, the other indices keep their order,
the new head is the former second index, and when the indices of the queue are pairwise
distinct the graded index is not at position 0; on a queue of one index the graded index
is the head again. -/
theorem again_no_immediate_repeat (p : Page) (head : Nat) (tail : List Nat)
    (h : p.session.queue = head :: tail) :
    (tail ≠ [] →
      (grade "again" p).page.session.queue = tail.take 3 ++ [head] ++ tail.drop 3 ∧
      1 ≤ min 3 (p.session.queue.length - 1) ∧
      (grade "again" p).page.session.queue.get? (min 3 (p.session.queue.length - 1))
        = some head ∧
      (grade "again" p).page.session.queue.eraseIdx (min 3 (p.session.queue.length - 1))
        = tail ∧
      (grade "again" p).page.session.queue.head? = tail.head? ∧
      (p.session.queue.Nodup →
        (grade "again" p).page.session.queue.get? 0 ≠ some head)) ∧
    (tail = [] → (grade "again" p).page.session.queue = [head]) := by
  have hq : (grade "again" p).page.session.queue = tail.take 3 ++ [head] ++ tail.drop 3 := by
    rw [grade_session _ p head tail h]
    simp
  have hn : p.session.queue.length - 1 = tail.length := by rw [h]; simp
  rw [hq, hn]
  refine ⟨?_, ?_⟩
  · intro hne
    have hl : tail.length ≠ 0 := fun hz => hne (List.length_eq_zero.1 hz)
    refine ⟨rfl, by omega, insert_get head tail, insert_eraseIdx head tail, ?_, ?_⟩
    · cases tail with
      | nil => exact absurd rfl hne
      | cons x xs => simp
    · intro hnd h0
      rw [h] at hnd
      have hnot : head ∉ tail := (List.nodup_cons.1 hnd).1
      have hk := (insert_get_iff head tail hnot 0).1 h0
      omega
  · intro ht
    rw [ht]
    rfl

/-- C6 amended, on a queue of six indices: `grade('again')` leaves `[1, 2, 3, 0, 4, 5]`,
with the graded index `0` at position 3 and not at position 0. -/
theorem again_no_immediate_repeat_witness :
    (grade "again" (pageOf (deckAB ++ deckAB ++ deckAB) [0, 1, 2, 3, 4, 5] true
      true)).page.session.queue = [1, 2, 3, 0, 4, 5] ∧
    (grade "again" (pageOf (deckAB ++ deckAB ++ deckAB) [0, 1, 2, 3, 4, 5] true
      true)).page.session.queue.get? 0 ≠ some 0 :=
  ⟨((again_no_immediate_repeat (pageOf (deckAB ++ deckAB ++ deckAB) [0, 1, 2, 3, 4, 5] true
      true) 0 [1, 2, 3, 4, 5] rfl).1 (by decide)).1,
   ((again_no_immediate_repeat (pageOf (deckAB ++ deckAB ++ deckAB) [0, 1, 2, 3, 4, 5] true
      true) 0 [1, 2, 3, 4, 5] rfl).1 (by decide)).2.2.2.2.2 (by decide)⟩

theorem restart_nil (p : Page) (h : p.session.cards = []) : restart p = .normal p := by
  simp [restart, h]

theorem restart_cons (p : Page) (c : Card) (cs : List Card) (h : p.session.cards = c :: cs) :
    restart p = .normal
      { session :=
          { p.session with queue := List.range (cs.length + 1), showingAnswer := false }
        dom :=
          { progressText := (renderProgress { p with session := { p.session with
              queue := List.range (cs.length + 1), showingAnswer := false } }).dom.progressText
            faceText := c.q
            ariaPressed := some "false"
            showBtnDisabled := false
            gotBtnDisabled := true
            againBtnDisabled := true
            showBtnFocused := true } } := by
  have hr : List.range (cs.length + 1) = 0 :: (List.range cs.length).map Nat.succ :=
    List.range_succ_eq_map _
  simp [restart, h, indices_eq_range, renderCard, renderProgress, setButtonsEnabled, hr]

/-- C7 (P4, restart reset): on every page whose card list is non-empty, of length `n`,
whatever the queue, the face and the mode, `restart()` returns and leaves
`queue = [0, 1, ..., n-1]` and `showingAnswer = false`, with the card list and
`removeOnGotIt` unchanged and the question of the first card displayed. -/
theorem restart_reset (p : Page) (hc : p.session.cards ≠ []) :
    (restart p).threw = false ∧
    (restart p).page.session.queue = List.range p.session.cards.length ∧
    (restart p).page.session.showingAnswer = false ∧
    (restart p).page.session.cards = p.session.cards ∧
    (restart p).page.session.removeOnGotIt = p.session.removeOnGotIt ∧
    ∀ c : Card, p.session.cards.head? = some c → (restart p).page.dom.faceText = c.q := by
  cases hcs : p.session.cards with
  | nil => exact absurd hcs hc
  | cons c cs =>
    rw [restart_cons p c cs hcs]
    refine ⟨rfl, rfl, rfl, ?_, rfl, ?_⟩
    · simp [Completion.page, hcs]
    · intro c1 h1
      simp only [List.head?_cons, Option.some.injEq] at h1
      rw [← h1]
      rfl

/-- C7 on the deck of scenario A: from an empty queue with the answer side up,
`restart()` leaves the queue `[0, 1]` with the front side up. -/
theorem restart_reset_witness :
    (restart (pageOf deckAB [] true false)).page.session.queue = [0, 1] ∧
    (restart (pageOf deckAB [] true false)).page.session.showingAnswer = false :=
  ⟨(restart_reset (pageOf deckAB [] true false) (by decide)).2.1,
   (restart_reset (pageOf deckAB [] true false) (by decide)).2.2.1⟩

/-- C8: `restart` is idempotent. On every page, also one with an empty card list, a
second `restart()` ends as the first did and leaves the same page: the same cards, queue,
face and mode, and the same document. -/
theorem restart_idempotent (p : Page) :
    restart (restart p).page = restart p ∧
    (restart (restart p).page).page.session = (restart p).page.session := by
  have key : restart (restart p).page = restart p := by
    cases hcs : p.session.cards with
    | nil => rw [restart_nil p hcs, Completion.page, restart_nil p hcs]
    | cons c cs =>
      rw [restart_cons p c cs hcs, Completion.page]
      rw [restart_cons _ c cs (by simpa using hcs)]
      rfl
  exact ⟨key, by rw [key]⟩

theorem renderCard_idem (p q : Page) (h : renderCard p = .normal q) :
    renderCard q = .normal q := by
  obtain ⟨⟨cards, queue, sa, m⟩, d⟩ := p
  cases queue with
  | nil =>
    simp [renderCard, setButtonsEnabled] at h
    subst h
    simp [renderCard, setButtonsEnabled]
  | cons i rest =>
    cases hc : cards[i]? with
    | none => simp [renderCard, hc] at h
    | some c =>
      cases sa <;>
      · simp [renderCard, hc, setButtonsEnabled] at h
        subst h
        simp [renderCard, hc, setButtonsEnabled]

theorem double_flip_rendered (p : Page) (h : renderCard p = .normal p) :
    flip (flip p).page = .normal p := by
  obtain ⟨⟨cards, queue, sa, m⟩, ⟨pt, ft, ap, sd, gd, ad, sf⟩⟩ := p
  cases queue with
  | nil => simp [flip, Completion.page]
  | cons i rest =>
    cases hc : cards[i]? with
    | none => simp [renderCard, hc] at h
    | some c =>
      cases sa <;>
      · simp [renderCard, hc, setButtonsEnabled] at h
        obtain ⟨h1, h2, h3, h4, h5⟩ := h
        simp [flip, renderCard, hc, setButtonsEnabled, Completion.page, h1, h2, h3, h4, h5]

theorem renderCard_normal (p : Page) (h : ∀ i ∈ p.session.queue, i < p.session.cards.length) :
    ∃ q, renderCard p = .normal q := by
  obtain ⟨⟨cards, queue, sa, m⟩, d⟩ := p
  cases queue with
  | nil => exact ⟨_, by simp [renderCard]; rfl⟩
  | cons i rest =>
    have hi : i < cards.length := h i (List.mem_cons_self i rest)
    have hc : cards[i]? = some cards[i] := List.getElem?_eq_getElem hi
    cases sa
    · exact ⟨_, by simp [renderCard, hc]; rfl⟩
    · exact ⟨_, by simp [renderCard, hc]; rfl⟩

theorem renderCard_inv (p : Page) (h : QueueWF p.session) :
    QueueWF (renderCard p).page.session ∧ Rendered (renderCard p).page := by
  obtain ⟨q, hq⟩ := renderCard_normal p h.2
  refine ⟨by rw [renderCard_session]; exact h, Or.inr ?_⟩
  rw [hq]
  exact renderCard_idem p q hq

theorem rendered_toggleRemoveChange (checked : Bool) (p : Page) (h : Rendered p) :
    Rendered (toggleRemoveChange checked p) := by
  rcases h with h | h
  · exact Or.inl h
  · right
    obtain ⟨⟨cards, queue, sa, m⟩, ⟨pt, ft, ap, sd, gd, ad, sf⟩⟩ := p
    cases queue with
    | nil =>
      simp [renderCard, setButtonsEnabled] at h
      simp [toggleRemoveChange, renderCard, setButtonsEnabled, h]
    | cons i rest =>
      cases hc : cards[i]? with
      | none => simp [renderCard, hc] at h
      | some c =>
        cases sa <;>
        · simp [renderCard, hc, setButtonsEnabled] at h
          simp [toggleRemoveChange, renderCard, hc, setButtonsEnabled, h]

theorem handle_inv (e : Event) (p : Page) (h : QueueWF p.session ∧ Rendered p) :
    QueueWF (handle e p).session ∧ Rendered (handle e p) := by
  cases e with
  | flip =>
    by_cases hq : p.session.queue = []
    · have h1 : flip p = .normal p := by simp [flip, hq]
      simpa [handle, h1, Completion.page] using h
    · have hl : p.session.queue.length ≠ 0 := by simpa using hq
      have h1 : flip p = renderCard
          { p with session := { p.session with showingAnswer := !p.session.showingAnswer } } := by
        simp [flip, hl]
      simp only [handle, h1]
      exact renderCard_inv _ h.1
  | grade result =>
    cases hq : p.session.queue with
    | nil =>
      simpa [handle, grade_nil result p hq, Completion.page] using h
    | cons idx rest =>
      have hwf : QueueWF (grade result p).page.session :=
        queueWF_of_subperm _ _ (grade_cards result p) (grade_queue_subperm result p) h.1
      simp only [handle]
      rw [grade_cons result p idx rest hq] at hwf ⊢
      rw [renderCard_session] at hwf
      exact renderCard_inv _ hwf
  | restart =>
    cases hcs : p.session.cards with
    | nil => simpa [handle, restart_nil p hcs, Completion.page] using h
    | cons c cs =>
      simp only [handle, restart_cons p c cs hcs, Completion.page]
      refine ⟨queueWF_range _ (by simp [hcs]), Or.inr ?_⟩
      have hr : List.range (cs.length + 1) = 0 :: (List.range cs.length).map Nat.succ :=
        List.range_succ_eq_map _
      simp [renderCard, setButtonsEnabled, hr, hcs]
  | toggleRemoveChange checked =>
    exact ⟨h.1, rendered_toggleRemoveChange checked p h.2⟩

theorem reachable_inv (p : Page) (h : Reachable p) : QueueWF p.session ∧ Rendered p := by
  induction h with
  | start m d => exact ⟨⟨List.nodup_nil, by simp [initialPage]⟩, Or.inl rfl⟩
  | load m d r =>
    cases r with
    | rejected => exact ⟨⟨List.nodup_nil, by simp [loadDeck, Completion.page, initialPage]⟩, Or.inl rfl⟩
    | response ok body =>
      cases ok with
      | false =>
        exact ⟨⟨List.nodup_nil, by simp [loadDeck, Completion.page, initialPage]⟩, Or.inl rfl⟩
      | true =>
        cases body with
        | unparseable =>
          exact ⟨⟨List.nodup_nil, by simp [loadDeck, Completion.page, initialPage]⟩, Or.inl rfl⟩
        | nullPayload =>
          exact ⟨⟨List.nodup_nil, by simp [loadDeck, Completion.page, initialPage]⟩, Or.inl rfl⟩
        | payload cs =>
          have h1 : loadDeck (.response true (.payload cs)) (initialPage m d) =
              renderCard (renderProgress { initialPage m d with session :=
                { (initialPage m d).session with
                  cards := cs.getD [], queue := indices (cs.getD []) } }) := by
            simp [loadDeck]
          rw [h1]
          exact renderCard_inv _ (queueWF_range _ (by simp [indices_eq_range]))
  | event e p _ ih => exact handle_inv e p ih

theorem double_flip_of_rendered (p : Page) (h : Rendered p) : flip (flip p).page = .normal p := by
  rcases h with hq | hr
  · have h1 : flip p = .normal p := by simp [flip, hq]
    rw [h1, Completion.page, h1]
  · exact double_flip_rendered p hr

/-- C9 (P5, flip toggling): on every page two consecutive `flip()` calls restore the
session variables (cards, queue, face and mode), with an empty queue as with a non-empty
one; and on every page whose document shows the current side, which every page the script
can reach is, both calls return and restore the whole page, the displayed face text
included. -/
theorem flip_flip (p : Page) :
    (flip (flip p).page).page.session = p.session ∧
    (Rendered p → flip (flip p).page = .normal p) ∧
    (Reachable p → flip (flip p).page = .normal p) := by
  refine ⟨?_, double_flip_of_rendered p, fun h => double_flip_of_rendered p (reachable_inv p h).2⟩
  rw [flip_session, flip_session]
  by_cases hq : p.session.queue = []
  · simp [hq]
  · simp [hq]

/-- C9 on scenario A: on the page left by a successful load of the two-card deck, which
shows the question `1+1`, two flips give back that page. -/
theorem flip_flip_witness :
    (loadDeck (.response true (.payload (some deckAB))) (initialPage true blankDom)).page.dom.faceText
      = "1+1" ∧
    flip (flip (loadDeck (.response true (.payload (some deckAB)))
        (initialPage true blankDom)).page).page =
      .normal (loadDeck (.response true (.payload (some deckAB))) (initialPage true blankDom)).page :=
  ⟨by decide,
   (flip_flip (loadDeck (.response true (.payload (some deckAB)))
      (initialPage true blankDom)).page).2.2 (Reachable.load true blankDom _)⟩

/-- C10: invalid calls are no-ops and raise nothing. On every page with an empty queue,
`flip()` and `grade(result)` for every result return with the page unchanged; on every
page with an empty card list `restart()` returns with the page unchanged. -/
theorem invalid_calls_noop (p : Page) :
    (p.session.queue = [] →
      flip p = .normal p ∧ ∀ result : String, grade result p = .normal p) ∧
    (p.session.cards = [] → restart p = .normal p) := by
  refine ⟨?_, restart_nil p⟩
  intro hq
  exact ⟨by simp [flip, hq], fun result => grade_nil result p hq⟩

/-- C10 on a page with no cards and an empty queue: `flip`, `grade('got_it')` and
`restart` return with the page unchanged. -/
theorem invalid_calls_noop_witness :
    flip (pageOf [] [] false true) = .normal (pageOf [] [] false true) ∧
    grade "got_it" (pageOf [] [] false true) = .normal (pageOf [] [] false true) ∧
    restart (pageOf [] [] false true) = .normal (pageOf [] [] false true) :=
  ⟨((invalid_calls_noop (pageOf [] [] false true)).1 rfl).1,
   ((invalid_calls_noop (pageOf [] [] false true)).1 rfl).2 "got_it",
   (invalid_calls_noop (pageOf [] [] false true)).2 rfl⟩

theorem renderCard_progressText (p : Page) :
    (renderCard p).page.dom.progressText = p.dom.progressText := by
  unfold renderCard
  split
  · rfl
  · split
    · rfl
    · split <;> rfl

/-- C11: frame of `flip` and of the mode change. On every page `flip()` leaves the queue
(hence the head index), the card list and `removeOnGotIt` as they were, so that of the
session variables it changes at most `showingAnswer`, and it leaves the progress text as it
was; the change handler of the checkbox sets `removeOnGotIt` and leaves the queue, the
card list, `showingAnswer` and the whole document as they were. -/
theorem flip_toggle_frame (p : Page) :
    ((flip p).page.session.queue = p.session.queue ∧
      (flip p).page.session.queue.head? = p.session.queue.head? ∧
      (flip p).page.session.cards = p.session.cards ∧
      (flip p).page.session.removeOnGotIt = p.session.removeOnGotIt ∧
      (flip p).page.dom.progressText = p.dom.progressText ∧
      ((flip p).page.session = p.session ∨
        (flip p).page.session =
          { p.session with showingAnswer := !p.session.showingAnswer })) ∧
    ∀ checked : Bool,
      (toggleRemoveChange checked p).session.removeOnGotIt = checked ∧
      (toggleRemoveChange checked p).session.queue = p.session.queue ∧
      (toggleRemoveChange checked p).session.cards = p.session.cards ∧
      (toggleRemoveChange checked p).session.showingAnswer = p.session.showingAnswer ∧
      (toggleRemoveChange checked p).dom = p.dom := by
  refine ⟨?_, fun checked => ⟨rfl, rfl, rfl, rfl, rfl⟩⟩
  have hs := flip_session p
  have hp : (flip p).page.dom.progressText = p.dom.progressText := by
    unfold flip
    split
    · rfl
    · rw [renderCard_progressText]
  by_cases hq : p.session.queue = []
  · simp only [hq, if_true] at hs
    rw [hs]
    exact ⟨rfl, rfl, rfl, rfl, hp, Or.inl rfl⟩
  · simp only [hq, if_false] at hs
    rw [hs]
    exact ⟨rfl, rfl, rfl, rfl, hp, Or.inr rfl⟩

theorem renderCard_shown (p : Page) (h : QueueWF p.session) :
    QueueWF (renderCard p).page.session ∧
      renderCard (renderCard p).page = .normal (renderCard p).page := by
  obtain ⟨q, hq⟩ := renderCard_normal p h.2
  refine ⟨by rw [renderCard_session]; exact h, ?_⟩
  rw [hq]
  exact renderCard_idem p q hq

theorem shown_toggleRemoveChange (checked : Bool) (p : Page) (h : renderCard p = .normal p) :
    renderCard (toggleRemoveChange checked p) = .normal (toggleRemoveChange checked p) := by
  obtain ⟨⟨cards, queue, sa, m⟩, ⟨pt, ft, ap, sd, gd, ad, sf⟩⟩ := p
  cases queue with
  | nil =>
    simp [renderCard, setButtonsEnabled] at h
    simp [toggleRemoveChange, renderCard, setButtonsEnabled, h]
  | cons i rest =>
    cases hc : cards[i]? with
    | none => simp [renderCard, hc] at h
    | some c =>
      cases sa <;>
      · simp [renderCard, hc, setButtonsEnabled] at h
        simp [toggleRemoveChange, renderCard, hc, setButtonsEnabled, h]

theorem handle_shown (e : Event) (p : Page)
    (h : QueueWF p.session ∧ renderCard p = .normal p) :
    QueueWF (handle e p).session ∧ renderCard (handle e p) = .normal (handle e p) := by
  cases e with
  | flip =>
    by_cases hq : p.session.queue = []
    · have h1 : flip p = .normal p := by simp [flip, hq]
      simpa [handle, h1, Completion.page] using h
    · have hl : p.session.queue.length ≠ 0 := by simpa using hq
      have h1 : flip p = renderCard
          { p with session := { p.session with showingAnswer := !p.session.showingAnswer } } := by
        simp [flip, hl]
      simp only [handle, h1]
      exact renderCard_shown _ h.1
  | grade result =>
    cases hq : p.session.queue with
    | nil =>
      simpa [handle, grade_nil result p hq, Completion.page] using h
    | cons idx rest =>
      have hwf : QueueWF (grade result p).page.session :=
        queueWF_of_subperm _ _ (grade_cards result p) (grade_queue_subperm result p) h.1
      simp only [handle]
      rw [grade_cons result p idx rest hq] at hwf ⊢
      rw [renderCard_session] at hwf
      exact renderCard_shown _ hwf
  | restart =>
    cases hcs : p.session.cards with
    | nil => simpa [handle, restart_nil p hcs, Completion.page] using h
    | cons c cs =>
      simp only [handle, restart_cons p c cs hcs, Completion.page]
      refine ⟨queueWF_range _ (by simp [hcs]), ?_⟩
      have hr : List.range (cs.length + 1) = 0 :: (List.range cs.length).map Nat.succ :=
        List.range_succ_eq_map _
      simp [renderCard, setButtonsEnabled, hr, hcs]
  | toggleRemoveChange checked =>
    exact ⟨h.1, shown_toggleRemoveChange checked p h.2⟩

theorem run_shown (es : List Event) :
    ∀ p : Page, QueueWF p.session ∧ renderCard p = .normal p →
      QueueWF (run es p).session ∧ renderCard (run es p) = .normal (run es p) := by
  induction es with
  | nil => intro p h; exact h
  | cons e es ih => intro p h; exact ih (handle e p) (handle_shown e p h)

theorem loadDeck_payload_shown (cs : Option (List Card)) (p : Page) :
    QueueWF (loadDeck (.response true (.payload cs)) p).page.session ∧
      renderCard (loadDeck (.response true (.payload cs)) p).page =
        .normal (loadDeck (.response true (.payload cs)) p).page := by
  have h1 : loadDeck (.response true (.payload cs)) p =
      renderCard (renderProgress { p with session :=
        { p.session with cards := cs.getD [], queue := indices (cs.getD []) } }) := by
    simp [loadDeck]
  rw [h1]
  exact renderCard_shown _ (queueWF_range _ (by simp [indices_eq_range]))

theorem controls_of_shown (p : Page) (h : renderCard p = .normal p) :
    (p.dom.showBtnDisabled = true ↔ p.session.queue = [] ∨ p.session.showingAnswer = true) ∧
    (p.dom.gotBtnDisabled = true ↔ p.session.queue = [] ∨ p.session.showingAnswer = false) ∧
    (p.dom.againBtnDisabled = true ↔
      p.session.queue = [] ∨ p.session.showingAnswer = false) := by
  obtain ⟨⟨cards, queue, sa, m⟩, ⟨pt, ft, ap, sd, gd, ad, sf⟩⟩ := p
  cases queue with
  | nil =>
    simp [renderCard, setButtonsEnabled] at h
    simp [h]
  | cons i rest =>
    cases hc : cards[i]? with
    | none => simp [renderCard, hc] at h
    | some c =>
      cases sa <;>
      · simp [renderCard, hc, setButtonsEnabled] at h
        simp [h]

/-- C12: control availability is a function of the state. On the page left by a successful
load at start and on every page reached from it by `flip`, `grade`, `restart` and mode
changes, the show control is disabled exactly when the queue is empty or the answer is
shown, and each of the `got it` and `again` controls is disabled exactly when the queue is
empty or the answer is not shown; with an empty queue all three are disabled. -/
theorem controls_availability (cs : Option (List Card)) (removeOnGotIt : Bool) (dom : Dom)
    (es : List Event) :
    ((run es (loadDeck (.response true (.payload cs))
        (initialPage removeOnGotIt dom)).page).dom.showBtnDisabled = true ↔
      (run es (loadDeck (.response true (.payload cs))
        (initialPage removeOnGotIt dom)).page).session.queue = [] ∨
      (run es (loadDeck (.response true (.payload cs))
        (initialPage removeOnGotIt dom)).page).session.showingAnswer = true) ∧
    ((run es (loadDeck (.response true (.payload cs))
        (initialPage removeOnGotIt dom)).page).dom.gotBtnDisabled = true ↔
      (run es (loadDeck (.response true (.payload cs))
        (initialPage removeOnGotIt dom)).page).session.queue = [] ∨
      (run es (loadDeck (.response true (.payload cs))
        (initialPage removeOnGotIt dom)).page).session.showingAnswer = false) ∧
    ((run es (loadDeck (.response true (.payload cs))
        (initialPage removeOnGotIt dom)).page).dom.againBtnDisabled = true ↔
      (run es (loadDeck (.response true (.payload cs))
        (initialPage removeOnGotIt dom)).page).session.queue = [] ∨
      (run es (loadDeck (.response true (.payload cs))
        (initialPage removeOnGotIt dom)).page).session.showingAnswer = false) ∧
    ((run es (loadDeck (.response true (.payload cs))
        (initialPage removeOnGotIt dom)).page).session.queue = [] →
      (run es (loadDeck (.response true (.payload cs))
        (initialPage removeOnGotIt dom)).page).dom.showBtnDisabled = true ∧
      (run es (loadDeck (.response true (.payload cs))
        (initialPage removeOnGotIt dom)).page).dom.gotBtnDisabled = true ∧
      (run es (loadDeck (.response true (.payload cs))
        (initialPage removeOnGotIt dom)).page).dom.againBtnDisabled = true) := by
  have hs := (run_shown es _
    (loadDeck_payload_shown cs (initialPage removeOnGotIt dom))).2
  obtain ⟨h1, h2, h3⟩ := controls_of_shown _ hs
  exact ⟨h1, h2, h3, fun hq => ⟨h1.2 (Or.inl hq), h2.2 (Or.inl hq), h3.2 (Or.inl hq)⟩⟩

/-- C12 on scenario C: after the two-card deck is loaded into a document whose controls
are enabled and both cards are flipped and graded `got_it` in removal mode, the queue is
empty and the three controls are disabled. -/
theorem controls_availability_witness :
    (run [.flip, .grade "got_it", .flip, .grade "got_it"]
      (loadDeck (.response true (.payload (some deckAB)))
        (initialPage true enabledDom)).page).dom.showBtnDisabled = true ∧
    (run [.flip, .grade "got_it", .flip, .grade "got_it"]
      (loadDeck (.response true (.payload (some deckAB)))
        (initialPage true enabledDom)).page).dom.gotBtnDisabled = true ∧
    (run [.flip, .grade "got_it", .flip, .grade "got_it"]
      (loadDeck (.response true (.payload (some deckAB)))
        (initialPage true enabledDom)).page).dom.againBtnDisabled = true :=
  (controls_availability (some deckAB) true enabledDom
    [.flip, .grade "got_it", .flip, .grade "got_it"]).2.2.2 (by decide)

theorem card_ne_complete (s t : String) : "Card " ++ s ≠ "Session complete. " ++ t := by
  intro h
  have h2 := congrArg (fun x => x.data.head?) h
  simp [String.data_append] at h2

theorem queueWF_length_le (s : Session) (h : QueueWF s) : s.queue.length ≤ s.cards.length := by
  have hsub : s.queue ⊆ List.range s.cards.length := fun i hi => List.mem_range.2 (h.2 i hi)
  have hle := (h.1.subperm hsub).length_le
  simpa using hle

theorem renderProgress_text (p : Page) :
    (renderProgress p).dom.progressText =
      if p.session.queue = [] then
        "Session complete. " ++ toString (p.session.cards.length : Int) ++ " / "
          ++ toString (p.session.cards.length : Int) ++ " learned."
      else
        "Card " ++ toString (if p.session.cards = [] then (0 : Int)
            else (p.session.cards.length : Int) - (p.session.queue.length : Int) + 1)
          ++ " of " ++ toString (p.session.cards.length : Int) ++ " — "
          ++ toString (p.session.queue.length : Int) ++ " remaining" := by
  obtain ⟨⟨cards, queue, sa, m⟩, d⟩ := p
  cases queue with
  | nil => simp [renderProgress]
  | cons i rest =>
    have h1 : ((rest.length : Int) + 1 > 0) := by omega
    have h2 : ¬ ((rest.length : Int) + 1 = 0) := by omega
    cases cards with
    | nil => simp [renderProgress, h1, h2]
    | cons c cs =>
      have h3 : ¬ ((cs.length : Int) + 1 = 0) := by omega
      simp [renderProgress, h1, h2, h3]

/-- C13: progress reporting. With `total` the number of cards and `remaining` the length
of the queue, `renderProgress()` shows the completion message
`Session complete. total / total learned.` exactly when `remaining = 0`, which includes
the deck without cards (`0 / 0`); and whenever `remaining > 0` in a deck with cards, as
in every well-formed queue, it shows the position `(total - remaining) + 1`, which lies
between 1 and `total`, together with `total` and `remaining`. -/
theorem progress_reporting (p : Page) :
    ((renderProgress p).dom.progressText =
        "Session complete. " ++ toString (p.session.cards.length : Int) ++ " / "
          ++ toString (p.session.cards.length : Int) ++ " learned." ↔
      p.session.queue.length = 0) ∧
    (p.session.cards = [] → p.session.queue = [] →
      (renderProgress p).dom.progressText = "Session complete. 0 / 0 learned.") ∧
    (0 < p.session.queue.length → p.session.cards ≠ [] →
      (renderProgress p).dom.progressText =
        "Card " ++ toString ((p.session.cards.length : Int) - (p.session.queue.length : Int) + 1)
          ++ " of " ++ toString (p.session.cards.length : Int) ++ " — "
          ++ toString (p.session.queue.length : Int) ++ " remaining") ∧
    (0 < p.session.queue.length → QueueWF p.session →
      p.session.cards ≠ [] ∧
      1 ≤ (p.session.cards.length : Int) - (p.session.queue.length : Int) + 1 ∧
      (p.session.cards.length : Int) - (p.session.queue.length : Int) + 1
        ≤ (p.session.cards.length : Int)) := by
  have ht := renderProgress_text p
  refine ⟨?_, ?_, ?_, ?_⟩
  · constructor
    · intro h
      by_contra hne
      have hq : p.session.queue ≠ [] := fun h0 => hne (by rw [h0]; rfl)
      rw [ht, if_neg hq] at h
      exact card_ne_complete _ _ (by simpa [String.append_assoc] using h)
    · intro h0
      rw [ht, if_pos (List.length_eq_zero.1 h0)]
  · intro hc hq
    rw [ht, if_pos hq, hc]
    decide
  · intro hpos hc
    have hq : p.session.queue ≠ [] := fun h0 => by rw [h0] at hpos; exact Nat.lt_irrefl 0 hpos
    rw [ht, if_neg hq, if_neg hc]
  · intro hpos hwf
    have hle := queueWF_length_le p.session hwf
    refine ⟨?_, by omega, by omega⟩
    intro hc
    rw [hc] at hle
    have h0 : p.session.queue.length ≤ 0 := hle
    omega

/-- C13 on scenario A: with two cards and the queue `[1]` the progress text gives
position 2 of 2 with 1 remaining. -/
theorem progress_reporting_witness :
    (renderProgress (pageOf deckAB [1] false true)).dom.progressText
      = "Card 2 of 2 — 1 remaining" :=
  ((progress_reporting (pageOf deckAB [1] false true)).2.2.1 (by decide) (by decide)).trans
    (by decide)

theorem loadDeck_payload_eq (cs : Option (List Card)) (p : Page) :
    loadDeck (.response true (.payload cs)) p =
      renderCard (renderProgress { p with session :=
        { p.session with cards := cs.getD [], queue := List.range (cs.getD []).length } }) := by
  simp [loadDeck, indices_eq_range]

theorem loadDeck_failed_eq (body : Body) (p : Page) :
    loadDeck (.response false body) p =
      .normal { p with dom := { p.dom with faceText := "Failed to load deck." } } := by
  simp [loadDeck]

/-- C14: initial state after a successful load. For every successful response carrying a
card list `c :: rest` of length `n > 0`, `loadDeck()` returns and leaves `cards` equal to
that list in order and `queue = [0, 1, ..., n-1]`, and, the front side being up as it is
at start, displays the question of card 0; for a successful response with an empty or an
absent card list it returns and leaves `cards` and `queue` empty. -/
theorem loadDeck_initial_state (p : Page) :
    (∀ (c : Card) (rest : List Card),
      (loadDeck (.response true (.payload (some (c :: rest)))) p).threw = false ∧
      (loadDeck (.response true (.payload (some (c :: rest)))) p).page.session.cards
        = c :: rest ∧
      (loadDeck (.response true (.payload (some (c :: rest)))) p).page.session.queue
        = List.range (c :: rest).length ∧
      (p.session.showingAnswer = false →
        (loadDeck (.response true (.payload (some (c :: rest)))) p).page.session.showingAnswer
          = false ∧
        (loadDeck (.response true (.payload (some (c :: rest)))) p).page.dom.faceText
          = c.q)) ∧
    ((loadDeck (.response true (.payload (some []))) p).threw = false ∧
      (loadDeck (.response true (.payload (some []))) p).page.session.cards = [] ∧
      (loadDeck (.response true (.payload (some []))) p).page.session.queue = []) ∧
    ((loadDeck (.response true (.payload none)) p).threw = false ∧
      (loadDeck (.response true (.payload none)) p).page.session.cards = [] ∧
      (loadDeck (.response true (.payload none)) p).page.session.queue = []) := by
  refine ⟨?_, ?_, ?_⟩
  · intro c rest
    have hr : List.range (rest.length + 1) = 0 :: (List.range rest.length).map Nat.succ :=
      List.range_succ_eq_map _
    have hh := renderCard_head (renderProgress { p with session :=
        { p.session with cards := c :: rest, queue := List.range (c :: rest).length } }) 0 c
      (by simp [hr]) (by simp)
    rw [loadDeck_payload_eq]
    refine ⟨hh.1, by simp, by simp, ?_⟩
    intro hs
    refine ⟨by simpa using hs, ?_⟩
    refine hh.2.trans ?_
    simp [hs]
  · rw [loadDeck_payload_eq]
    obtain ⟨q, hq⟩ := renderCard_normal (renderProgress { p with session :=
      { p.session with cards := (some ([] : List Card)).getD [],
                       queue := List.range ((some ([] : List Card)).getD []).length } })
      (by simp)
    exact ⟨by rw [hq]; rfl, by rw [renderCard_session]; rfl, by rw [renderCard_session]; rfl⟩
  · rw [loadDeck_payload_eq]
    obtain ⟨q, hq⟩ := renderCard_normal (renderProgress { p with session :=
      { p.session with cards := (none : Option (List Card)).getD [],
                       queue := List.range ((none : Option (List Card)).getD []).length } })
      (by simp)
    exact ⟨by rw [hq]; rfl, by rw [renderCard_session]; rfl, by rw [renderCard_session]; rfl⟩

/-- C14 on scenario A: loading the two-card deck at start leaves the queue `[0, 1]` with
the question `1+1` displayed. -/
theorem loadDeck_initial_state_witness :
    (loadDeck (.response true (.payload (some deckAB)))
      (initialPage true blankDom)).page.session.queue = [0, 1] ∧
    (loadDeck (.response true (.payload (some deckAB)))
      (initialPage true blankDom)).page.dom.faceText = "1+1" :=
  ⟨((loadDeck_initial_state (initialPage true blankDom)).1 ⟨"1+1", "2"⟩ [⟨"2+2", "4"⟩]).2.2.1,
   ((((loadDeck_initial_state (initialPage true blankDom)).1 ⟨"1+1", "2"⟩
      [⟨"2+2", "4"⟩]).2.2.2) rfl).2⟩

/-- C15: a failed load leaves nothing playable. When the response has a non-success
status, `loadDeck()` returns having written only the face text `Failed to load deck.`; at
start it thus leaves the card list and the queue empty, and on the page it leaves `flip`,
`grade` with any result and `restart` return with the page unchanged. -/
theorem failed_load_not_playable (body : Body) :
    (∀ p : Page,
      (loadDeck (.response false body) p).threw = false ∧
      (loadDeck (.response false body) p).page.dom.faceText = "Failed to load deck." ∧
      (loadDeck (.response false body) p).page.session = p.session) ∧
    ∀ (removeOnGotIt : Bool) (dom : Dom),
      (loadDeck (.response false body) (initialPage removeOnGotIt dom)).page.session.cards
        = [] ∧
      (loadDeck (.response false body) (initialPage removeOnGotIt dom)).page.session.queue
        = [] ∧
      flip (loadDeck (.response false body) (initialPage removeOnGotIt dom)).page =
        .normal (loadDeck (.response false body) (initialPage removeOnGotIt dom)).page ∧
      (∀ result : String,
        grade result (loadDeck (.response false body) (initialPage removeOnGotIt dom)).page =
          .normal (loadDeck (.response false body) (initialPage removeOnGotIt dom)).page) ∧
      restart (loadDeck (.response false body) (initialPage removeOnGotIt dom)).page =
        .normal (loadDeck (.response false body) (initialPage removeOnGotIt dom)).page := by
  refine ⟨?_, ?_⟩
  · intro p
    rw [loadDeck_failed_eq]
    exact ⟨rfl, rfl, rfl⟩
  · intro m d
    rw [loadDeck_failed_eq]
    refine ⟨rfl, rfl, ?_, ?_, ?_⟩
    · simp [flip, Completion.page, initialPage]
    · intro result
      exact grade_nil result _ rfl
    · exact restart_nil _ rfl

/-- C16 evaluated: the failure branch of `loadDeck()` writes the face text and nothing
else, so the three controls keep the state the document had before the call; from a
document whose controls are enabled they are still enabled after a failed load although the
queue is empty, whereas a successful load of a payload without cards, which reaches
`renderCard()`, leaves all three disabled. -/
theorem failed_load_controls_untouched :
    (∀ (body : Body) (p : Page),
      (loadDeck (.response false body) p).page.dom.showBtnDisabled = p.dom.showBtnDisabled ∧
      (loadDeck (.response false body) p).page.dom.gotBtnDisabled = p.dom.gotBtnDisabled ∧
      (loadDeck (.response false body) p).page.dom.againBtnDisabled
        = p.dom.againBtnDisabled) ∧
    ((loadDeck (.response false .unparseable) (initialPage true enabledDom)).page.session.queue
        = [] ∧
      (loadDeck (.response false .unparseable)
        (initialPage true enabledDom)).page.dom.showBtnDisabled = false ∧
      (loadDeck (.response false .unparseable)
        (initialPage true enabledDom)).page.dom.gotBtnDisabled = false ∧
      (loadDeck (.response false .unparseable)
        (initialPage true enabledDom)).page.dom.againBtnDisabled = false) ∧
    ((loadDeck (.response true (.payload none)) (initialPage true enabledDom)).page.session.queue
        = [] ∧
      (loadDeck (.response true (.payload none))
        (initialPage true enabledDom)).page.dom.showBtnDisabled = true ∧
      (loadDeck (.response true (.payload none))
        (initialPage true enabledDom)).page.dom.gotBtnDisabled = true ∧
      (loadDeck (.response true (.payload none))
        (initialPage true enabledDom)).page.dom.againBtnDisabled = true) := by
  refine ⟨?_, by decide, by decide⟩
  intro body p
  rw [loadDeck_failed_eq]
  exact ⟨rfl, rfl, rfl⟩

theorem indices_map_some (cs : List Card) : indices (cs.map some) = indices cs := by
  rw [indices_eq_range, indices_eq_range, List.length_map]

theorem renderProgressRaw_typed (p : Page) :
    renderProgressRaw (p.session.cards.map some) p.toRaw = (renderProgress p).toRaw := by
  simp [renderProgressRaw, renderProgress, Page.toRaw]

theorem renderCardRaw_typed (p : Page) :
    renderCardRaw (p.session.cards.map some) p.toRaw = (renderCard p).toRaw := by
  obtain ⟨⟨cards, queue, sa, m⟩, d⟩ := p
  cases queue with
  | nil => simp [renderCardRaw, renderCard, Page.toRaw, Completion.toRaw,
      setButtonsEnabledRaw, setButtonsEnabled]
  | cons i rest =>
    cases hc : cards[i]? with
    | none =>
      simp [renderCardRaw, renderCard, Page.toRaw, Completion.toRaw, hc]
    | some c =>
      cases sa <;>
      simp [renderCardRaw, renderCard, Page.toRaw, Completion.toRaw, hc,
        setButtonsEnabledRaw, setButtonsEnabled]

theorem loadDeckRaw_payload_typed (cs : List Card) (p : Page) :
    renderCardRaw (cs.map some) (renderProgressRaw (cs.map some)
        { p.toRaw with cards := .array (cs.map some), queue := indices (cs.map some) }) =
      (renderCard (renderProgress
        { p with session := { p.session with cards := cs, queue := indices cs } })).toRaw := by
  have h1 := renderProgressRaw_typed
    { p with session := { p.session with cards := cs, queue := indices cs } }
  have h2 := renderCardRaw_typed (renderProgress
    { p with session := { p.session with cards := cs, queue := indices cs } })
  simp only [renderProgress_session] at h2
  rw [← h2, ← h1, indices_map_some]
  rfl

/-- On a deck that is a list of cards, `loadDeckRaw` is `loadDeck`. -/
theorem loadDeckRaw_typed (r : FetchResult) (p : Page) :
    loadDeckRaw r.toRaw p.toRaw = (loadDeck r p).toRaw := by
  cases r with
  | rejected => rfl
  | response ok body =>
    cases ok with
    | false => cases body with
      | unparseable => rfl
      | nullPayload => rfl
      | payload cs => cases cs <;> rfl
    | true =>
      cases body with
      | unparseable => rfl
      | nullPayload => rfl
      | payload cs =>
        cases cs with
        | none => exact loadDeckRaw_payload_typed [] p
        | some cs => exact loadDeckRaw_payload_typed cs p

theorem loadDeckRaw_array_queue (entries : List (Option Card)) (p : RawPage) :
    (loadDeckRaw (.response true (.payload (.array entries))) p).page.queue
        = List.range entries.length ∧
    (loadDeckRaw (.response true (.payload (.array entries))) p).page.cards
        = .array entries := by
  have h : ∀ q : RawPage, (renderCardRaw entries q).page.queue = q.queue ∧
      (renderCardRaw entries q).page.cards = q.cards := by
    intro q
    unfold renderCardRaw
    split
    · exact ⟨rfl, rfl⟩
    · split
      · exact ⟨rfl, rfl⟩
      · exact ⟨rfl, rfl⟩
      · split <;> exact ⟨rfl, rfl⟩
  simp only [loadDeckRaw, Bool.not_true, Bool.false_eq_true, if_false]
  rw [(h _).1, (h _).2]
  exact ⟨by simp [renderProgressRaw, indices_eq_range], rfl⟩

/-- C17, as stated, fails on each class of malformed body of a successful response, from
a start page with a blank document: without a `cards` property `loadDeck()` shows the
completion display of an empty deck and not the failure message; on a body that does not
parse, on a `null` payload and on a `cards` value that is not an array, an exception
escapes and the face text is left as it was; on the array `[null]` an exception escapes after the queue has been set
to `[0]` and the progress text to that of one remaining card. -/
theorem malformed_payload_no_failure_message :
    ((loadDeckRaw (.response true (.payload .missing))
        (rawInitialPage true blankDom)).page.dom.faceText = "🎉 All done!" ∧
      (loadDeckRaw (.response true (.payload .missing))
        (rawInitialPage true blankDom)).page.dom.faceText ≠ "Failed to load deck.") ∧
    ((loadDeckRaw (.response true .unparseable) (rawInitialPage true blankDom)).threw = true ∧
      (loadDeckRaw (.response true .unparseable)
        (rawInitialPage true blankDom)).page.dom.faceText ≠ "Failed to load deck.") ∧
    ((loadDeckRaw (.response true .nullPayload) (rawInitialPage true blankDom)).threw = true ∧
      (loadDeckRaw (.response true .nullPayload)
        (rawInitialPage true blankDom)).page.dom.faceText ≠ "Failed to load deck.") ∧
    ((loadDeckRaw (.response true (.payload .notArray))
        (rawInitialPage true blankDom)).threw = true ∧
      (loadDeckRaw (.response true (.payload .notArray))
        (rawInitialPage true blankDom)).page.dom.faceText ≠ "Failed to load deck.") ∧
    ((loadDeckRaw (.response true (.payload (.array [none])))
        (rawInitialPage true blankDom)).threw = true ∧
      (loadDeckRaw (.response true (.payload (.array [none])))
        (rawInitialPage true blankDom)).page.queue = [0] ∧
      (loadDeckRaw (.response true (.payload (.array [none])))
        (rawInitialPage true blankDom)).page.dom.progressText = "Card 1 of 1 — 1 remaining" ∧
      (loadDeckRaw (.response true (.payload (.array [none])))
        (rawInitialPage true blankDom)).page.dom.faceText ≠ "Failed to load deck.") := by
  decide

/-- C17, amended: on a successful response whose body is malformed, `loadDeck()` at start
leaves the queue empty when the body does not parse, when the payload is `null`, and when
its property `cards` is missing or is not an array; when `cards` is an array it leaves
`cards` that array and `queue = [0, ..., n-1]` over its `n` entries, entries that are not
cards included, so that the queue is not empty when the array holds such an entry. When
`cards` is missing the call returns, leaves the card list empty and shows the completion
display of an empty deck, `🎉 All done!` with `Session complete. 0 / 0 learned.`, which is
not the failure message; when the first entry of the array is a card the call returns and
shows the question of that card. -/
theorem malformed_payload_load (removeOnGotIt : Bool) (dom : Dom) :
    (loadDeckRaw (.response true .unparseable) (rawInitialPage removeOnGotIt dom)).page.queue
      = [] ∧
    (loadDeckRaw (.response true .nullPayload) (rawInitialPage removeOnGotIt dom)).page.queue
      = [] ∧
    (loadDeckRaw (.response true (.payload .notArray))
      (rawInitialPage removeOnGotIt dom)).page.queue = [] ∧
    ((loadDeckRaw (.response true (.payload .missing))
        (rawInitialPage removeOnGotIt dom)).page.queue = [] ∧
      (loadDeckRaw (.response true (.payload .missing))
        (rawInitialPage removeOnGotIt dom)).threw = false ∧
      (loadDeckRaw (.response true (.payload .missing))
        (rawInitialPage removeOnGotIt dom)).page.cards = .array [] ∧
      (loadDeckRaw (.response true (.payload .missing))
        (rawInitialPage removeOnGotIt dom)).page.dom.faceText = "🎉 All done!" ∧
      (loadDeckRaw (.response true (.payload .missing))
        (rawInitialPage removeOnGotIt dom)).page.dom.progressText
        = "Session complete. 0 / 0 learned." ∧
      (loadDeckRaw (.response true (.payload .missing))
        (rawInitialPage removeOnGotIt dom)).page.dom.faceText ≠ "Failed to load deck.") ∧
    (∀ entries : List (Option Card),
      (loadDeckRaw (.response true (.payload (.array entries)))
        (rawInitialPage removeOnGotIt dom)).page.queue = List.range entries.length ∧
      (loadDeckRaw (.response true (.payload (.array entries)))
        (rawInitialPage removeOnGotIt dom)).page.cards = .array entries ∧
      (none ∈ entries →
        (loadDeckRaw (.response true (.payload (.array entries)))
          (rawInitialPage removeOnGotIt dom)).page.queue ≠ [])) ∧
    (∀ (c : Card) (rest : List (Option Card)),
      (loadDeckRaw (.response true (.payload (.array (some c :: rest))))
        (rawInitialPage removeOnGotIt dom)).threw = false ∧
      (loadDeckRaw (.response true (.payload (.array (some c :: rest))))
        (rawInitialPage removeOnGotIt dom)).page.dom.faceText = c.q) := by
  have hm : loadDeckRaw (.response true (.payload .missing))
      (rawInitialPage removeOnGotIt dom) =
      .normal
        { rawInitialPage removeOnGotIt dom with
          dom := { dom with
            progressText := "Session complete. 0 / 0 learned."
            faceText := "🎉 All done!"
            showBtnDisabled := true
            gotBtnDisabled := true
            againBtnDisabled := true } } := by
    simp [loadDeckRaw, renderCardRaw, renderProgressRaw, setButtonsEnabledRaw, rawInitialPage,
      indices]
    decide
  have hne : ("🎉 All done!" : String) ≠ "Failed to load deck." := by decide
  refine ⟨rfl, rfl, rfl, ?_, ?_, ?_⟩
  · rw [hm]
    exact ⟨rfl, rfl, rfl, rfl, rfl, hne⟩
  · intro entries
    obtain ⟨hq, hc⟩ := loadDeckRaw_array_queue entries (rawInitialPage removeOnGotIt dom)
    refine ⟨hq, hc, ?_⟩
    intro hmem h0
    rw [hq] at h0
    have hl : entries.length = 0 := by simpa using h0
    rw [List.length_eq_zero.1 hl] at hmem
    simp at hmem
  · intro c rest
    have hr : List.range (rest.length + 1) = 0 :: (List.range rest.length).map Nat.succ :=
      List.range_succ_eq_map _
    simp [loadDeckRaw, renderCardRaw, renderProgressRaw, setButtonsEnabledRaw, rawInitialPage,
      indices_eq_range, hr, RawCompletion.threw, RawCompletion.page]

/-- C17 amended, on the array `[null]`: the load at start leaves the queue `[0]`, which
is not empty. -/
theorem malformed_payload_load_witness :
    (loadDeckRaw (.response true (.payload (.array [none])))
      (rawInitialPage true blankDom)).page.queue ≠ [] :=
  ((malformed_payload_load true blankDom).2.2.2.2.1 [none]).2.2 (by decide)

/-- C18: an unrecognised result retires the card. On a queue `head :: tail`, for every
result that is neither `again` nor `got_it`, `grade(result)` leaves the queue `tail` (the
head index is removed and not put back) with `showingAnswer` false, whatever
`removeOnGotIt` is, and leaves the card list and `removeOnGotIt` as they were. -/
theorem grade_unrecognised_result (result : String) (p : Page) (head : Nat) (tail : List Nat)
    (h : p.session.queue = head :: tail) (h1 : result ≠ "again") (h2 : result ≠ "got_it") :
    (grade result p).page.session.queue = tail ∧
    (grade result p).page.session.showingAnswer = false ∧
    (grade result p).page.session.cards = p.session.cards ∧
    (grade result p).page.session.removeOnGotIt = p.session.removeOnGotIt ∧
    (p.session.queue.Nodup → head ∉ (grade result p).page.session.queue) := by
  rw [grade_session result p head tail h]
  refine ⟨by simp [h1, h2], rfl, rfl, rfl, ?_⟩
  intro hnd
  rw [h] at hnd
  simpa [h1, h2] using (List.nodup_cons.1 hnd).1

/-- C18 on the deck of scenario A with `removeOnGotIt` false: grading the head of `[0, 1]`
with the result `skip` leaves the queue `[1]`. -/
theorem grade_unrecognised_result_witness :
    (grade "skip" (pageOf deckAB [0, 1] true false)).page.session.queue = [1] :=
  (grade_unrecognised_result "skip" (pageOf deckAB [0, 1] true false) 0 [1] rfl
    (by decide) (by decide)).1

theorem run_append (es fs : List Event) (p : Page) : run (es ++ fs) p = run fs (run es p) := by
  simp [run, List.foldl_append]

theorem run_replicate_succ (e : Event) (k : Nat) (p : Page) :
    run (List.replicate (k + 1) e) p = handle e (run (List.replicate k e) p) := by
  rw [List.replicate_succ', run_append]
  rfl

theorem got_it_pass (p : Page) (n : Nat) (hq : p.session.queue = List.range n)
    (hm : p.session.removeOnGotIt = true) (k : Nat) (hk : k ≤ n) :
    (run (List.replicate k (.grade "got_it")) p).session.queue = List.range' k (n - k) ∧
    (run (List.replicate k (.grade "got_it")) p).session.removeOnGotIt = true := by
  induction k with
  | zero =>
    refine ⟨?_, hm⟩
    simp [run, hq, List.range_eq_range']
  | succ k ih =>
    obtain ⟨ihq, ihm⟩ := ih (by omega)
    have hn : n - k = (n - (k + 1)) + 1 := by omega
    rw [hn, List.range'_succ] at ihq
    rw [run_replicate_succ]
    simp only [handle]
    rw [grade_session _ _ k _ ihq]
    simp [ihm]

/-- C19: a full pass in removal mode takes exactly `n` correct grades in the original
order. From the queue `[0, ..., n-1]`, as a load or a restart leaves it, with
`removeOnGotIt` true, after `k ≤ n` consecutive `grade('got_it')` calls the queue is
`[k, k+1, ..., n-1]`; hence for `k < n` it is non-empty and its head, the next card
graded, is the index `k`, and it is empty exactly at `k = n`. -/
theorem full_pass_in_order (p : Page) (n : Nat) (hq : p.session.queue = List.range n)
    (hm : p.session.removeOnGotIt = true) (k : Nat) (hk : k ≤ n) :
    (run (List.replicate k (.grade "got_it")) p).session.queue = List.range' k (n - k) ∧
    (∀ j : Nat, (run (List.replicate k (.grade "got_it")) p).session.queue.get? j =
      if j < n - k then some (k + j) else none) ∧
    (k < n → (run (List.replicate k (.grade "got_it")) p).session.queue.head? = some k) ∧
    ((run (List.replicate k (.grade "got_it")) p).session.queue = [] ↔ k = n) := by
  have h := (got_it_pass p n hq hm k hk).1
  rw [h]
  refine ⟨rfl, ?_, ?_, ?_⟩
  · intro j
    by_cases hj : j < n - k
    · simp [hj, List.getElem?_range']
    · simp [hj]
      omega
  · intro hlt
    have hn : n - k = (n - (k + 1)) + 1 := by omega
    rw [hn, List.range'_succ]
    rfl
  · constructor
    · intro h0
      have hl := congrArg List.length h0
      simp at hl
      omega
    · intro he
      rw [he]
      simp

/-- C19 on the deck of scenario A: after a restart in removal mode the queue is `[0, 1]`;
one `got_it` leaves `[1]` and two leave the empty queue. -/
theorem full_pass_in_order_witness :
    (run (List.replicate 1 (.grade "got_it"))
      (restart (pageOf deckAB [] true true)).page).session.queue = [1] ∧
    (run (List.replicate 2 (.grade "got_it"))
      (restart (pageOf deckAB [] true true)).page).session.queue = [] :=
  ⟨(full_pass_in_order (restart (pageOf deckAB [] true true)).page 2 (by decide) (by decide)
      1 (by decide)).1,
   (full_pass_in_order (restart (pageOf deckAB [] true true)).page 2 (by decide) (by decide)
      2 (by decide)).1⟩

theorem insert_drop_four (idx : Nat) (rest : List Nat) :
    (rest.take 3 ++ [idx] ++ rest.drop 3).drop 4 = (idx :: rest).drop 4 := by
  by_cases h : 3 ≤ rest.length
  · have hl : (rest.take 3).length = 3 := by simp [h]
    rw [List.append_assoc, List.drop_append_eq_append_drop, hl]
    simp [List.drop_of_length_le (Nat.le_of_eq hl)]
  · have h1 : rest.length ≤ 3 := by omega
    rw [List.take_of_length_le h1, List.drop_of_length_le h1]
    simp only [List.append_nil, List.drop_succ_cons]
    rw [List.drop_of_length_le (by simp; omega), List.drop_of_length_le h1]

theorem insert_take_four (idx : Nat) (rest : List Nat) :
    (rest.take 3 ++ [idx] ++ rest.drop 3).take 4 = rest.take 3 ++ [idx] := by
  by_cases h : 3 ≤ rest.length
  · have hl : (rest.take 3 ++ [idx]).length = 4 := by simp [h]
    rw [List.take_append_eq_append_take, hl]
    simp [List.take_of_length_le (Nat.le_of_eq hl)]
  · have h1 : rest.length ≤ 3 := by omega
    rw [List.take_of_length_le h1, List.drop_of_length_le h1]
    simp only [List.append_nil]
    exact List.take_of_length_le (by simp; omega)

theorem grade_again_first_four (p : Page) :
    (grade "again" p).page.session.queue.drop 4 = p.session.queue.drop 4 ∧
    ((grade "again" p).page.session.queue.take 4).Perm (p.session.queue.take 4) := by
  cases hq : p.session.queue with
  | nil =>
    rw [grade_nil _ p hq, Completion.page, hq]
    exact ⟨rfl, List.Perm.refl _⟩
  | cons idx rest =>
    have hg : (grade "again" p).page.session.queue = rest.take 3 ++ [idx] ++ rest.drop 3 := by
      rw [grade_session _ p idx rest hq]
      simp
    rw [hg, insert_drop_four, insert_take_four]
    exact ⟨rfl, by simp⟩

theorem run_again_first_four (k : Nat) (p : Page) :
    (run (List.replicate k (.grade "again")) p).session.queue.drop 4
      = p.session.queue.drop 4 ∧
    ((run (List.replicate k (.grade "again")) p).session.queue.take 4).Perm
      (p.session.queue.take 4) := by
  induction k with
  | zero => exact ⟨rfl, List.Perm.refl _⟩
  | succ k ih =>
    rw [run_replicate_succ]
    have h := grade_again_first_four (run (List.replicate k (.grade "again")) p)
    exact ⟨h.1.trans ih.1, h.2.trans ih.2⟩

/-- C20: repeated `again` only ever cycles the first four cards. For every queue and every
`k`, after `k` consecutive `grade('again')` calls the indices from position 4 onward are
those of the original queue at the same positions, and the first `min 4 n` positions hold
a permutation of the original first `min 4 n` indices; so the head is always one of the
first four original indices, and in a queue of distinct indices an index at position 4 or
later never becomes the head. -/
theorem again_cycles_first_four (p : Page) (k : Nat) :
    (run (List.replicate k (.grade "again")) p).session.queue.drop 4
      = p.session.queue.drop 4 ∧
    (∀ j : Nat, 4 ≤ j →
      (run (List.replicate k (.grade "again")) p).session.queue.get? j
        = p.session.queue.get? j) ∧
    ((run (List.replicate k (.grade "again")) p).session.queue.take 4).Perm
      (p.session.queue.take 4) ∧
    (run (List.replicate k (.grade "again")) p).session.queue.length
      = p.session.queue.length ∧
    (∀ i : Nat, (run (List.replicate k (.grade "again")) p).session.queue.head? = some i →
      i ∈ p.session.queue.take 4) ∧
    (p.session.queue.Nodup → ∀ i ∈ p.session.queue.drop 4,
      (run (List.replicate k (.grade "again")) p).session.queue.head? ≠ some i) := by
  obtain ⟨hd, ht⟩ := run_again_first_four k p
  have hhead : ∀ i : Nat,
      (run (List.replicate k (.grade "again")) p).session.queue.head? = some i →
      i ∈ p.session.queue.take 4 := by
    intro i hi
    apply ht.mem_iff.1
    cases hq : (run (List.replicate k (.grade "again")) p).session.queue with
    | nil => rw [hq] at hi; simp at hi
    | cons x xs =>
      rw [hq] at hi
      simp only [List.head?_cons, Option.some.injEq] at hi
      simp [hi]
  refine ⟨hd, ?_, ht, ?_, hhead, ?_⟩
  · intro j hj
    have h1 := congrArg (fun l => l.get? (j - 4)) hd
    simp only [List.get?_eq_getElem?, List.getElem?_drop] at h1
    have hj4 : 4 + (j - 4) = j := by omega
    rw [hj4] at h1
    simpa using h1
  · have h1 := congrArg List.length (List.take_append_drop 4
      (run (List.replicate k (.grade "again")) p).session.queue)
    have h2 := congrArg List.length (List.take_append_drop 4 p.session.queue)
    rw [List.length_append] at h1 h2
    rw [← h1, ← h2, hd, ht.length_eq]
  · intro hnd i hi hh
    have hmem := hhead i hh
    have hsplit := List.take_append_drop 4 p.session.queue
    rw [← hsplit] at hnd
    exact (List.nodup_append.1 hnd).2.2 hmem hi

/-- C20 on a queue of six indices: after five `again` grades the indices at positions 4
and 5 are still `4` and `5`, and the head is not `4`. -/
theorem again_cycles_first_four_witness :
    (run (List.replicate 5 (.grade "again"))
      (pageOf (deckAB ++ deckAB ++ deckAB) [0, 1, 2, 3, 4, 5] true true)).session.queue.drop 4
      = [4, 5] ∧
    (run (List.replicate 5 (.grade "again"))
      (pageOf (deckAB ++ deckAB ++ deckAB) [0, 1, 2, 3, 4, 5] true true)).session.queue.head?
      ≠ some 4 :=
  ⟨(again_cycles_first_four
      (pageOf (deckAB ++ deckAB ++ deckAB) [0, 1, 2, 3, 4, 5] true true) 5).1,
   (again_cycles_first_four
      (pageOf (deckAB ++ deckAB ++ deckAB) [0, 1, 2, 3, 4, 5] true true) 5).2.2.2.2.2
      (by decide) 4 (by decide)⟩

end Flashcards
